import Mathlib

/-!
# Verification of the Ali-price bot core against its specification

This file gives a shallow embedding, in Lean 4, of the core logic of the
repository (a Telegram bot that extracts AliExpress product links from chat
messages, queries the AliExpress affiliate API, and replies with product
details and an affiliate link), and proves or refutes the frozen claims
about it.

Modelling conventions:
* Python strings are modelled either as Lean `String` or, for the URL-parsing
  functions where character-level reasoning is needed, as `List Char`
  (a Python `str` is a sequence of code points).
* Python floats are modelled as rationals (`ℚ`); `time.time()` values are
  rationals supplied as explicit arguments.
* Python dicts with string keys are modelled as association lists or as
  functions, as noted at each definition.
* I/O boundaries (the HTTP response body, `json.loads`, `hashlib.md5`,
  Python `str()` on floats) are modelled as explicit function parameters or
  abstract inputs, so that every post-I/O computation of the source is a
  pure Lean function of them.
-/

/- ===================================================================
   Section 1: Usage telemetry (src/bot/analytics.py)
   =================================================================== -/

/-- A recorded user action, mirroring the dict appended to `user_actions`
in analytics.py (lines 27-31). -/
structure UsageEvent where
  user_id : Int
  action_type : String
  timestamp : Int
deriving Repr, DecidableEq

/-- The module-level mutable telemetry state of analytics.py:
`user_actions` (a list), `action_counts` (a `defaultdict(int)`, modelled as a
total function defaulting to 0) and `user_last_active` (a dict, modelled as a
partial function). -/
structure AnalyticsState where
  user_actions : List UsageEvent
  action_counts : String → Nat
  user_last_active : Int → Option Int

/-- The initial (empty) telemetry state: empty list, all counts zero, no
last-active entries. -/
def initialAnalyticsState : AnalyticsState :=
  { user_actions := []
    action_counts := fun _ => 0
    user_last_active := fun _ => none }

/-- Translation of `log_user_action` (analytics.py lines 17-41).  The
current epoch timestamp (`int(time.time())`) is passed explicitly.  The
periodic flush to disk (every 100 actions) does not change the in-memory
state and is outside the model. -/
def log_user_action (s : AnalyticsState) (user_id : Int) (action_type : String)
    (timestamp : Int) : AnalyticsState :=
  { user_actions := s.user_actions ++ [{ user_id := user_id, action_type := action_type, timestamp := timestamp }]
    action_counts := fun a => if a = action_type then s.action_counts a + 1 else s.action_counts a
    user_last_active := fun u => if u = user_id then some timestamp else s.user_last_active u }

/-- A sequence of `log_user_action` calls, each given as
(user id, action type, timestamp), run left to right from a state. -/
def run_actions (calls : List (Int × String × Int)) (s : AnalyticsState) : AnalyticsState :=
  calls.foldl (fun st c => log_user_action st c.1 c.2.1 c.2.2) s

/-- Consistency of the three telemetry structures: each count equals the
number of logged events with that action type, and each last-active entry is
the timestamp of the most recent (last-appended) event of that user. -/
def analyticsConsistent (s : AnalyticsState) : Prop :=
  (∀ a, s.action_counts a = (s.user_actions.filter (fun e => e.action_type == a)).length) ∧
  (∀ u, s.user_last_active u =
    ((s.user_actions.filter (fun e => e.user_id == u)).getLast?).map UsageEvent.timestamp)

theorem initial_consistent : analyticsConsistent initialAnalyticsState := by
  constructor <;> intro x <;> simp [initialAnalyticsState]

theorem log_user_action_consistent (s : AnalyticsState) (uid : Int) (act : String) (ts : Int)
    (h : analyticsConsistent s) : analyticsConsistent (log_user_action s uid act ts) := by
  obtain ⟨hc, hl⟩ := h
  constructor
  · intro a
    by_cases hcase : a = act
    · subst hcase
      simp [log_user_action, List.filter_append, hc a]
    · simp [log_user_action, List.filter_append, hc a, hcase, Ne.symm hcase]
  · intro u
    by_cases hcase : u = uid
    · subst hcase
      simp [log_user_action, List.filter_append, List.getLast?_concat]
    · simp [log_user_action, List.filter_append, hl u, hcase, Ne.symm hcase]

theorem run_actions_consistent (calls : List (Int × String × Int)) (s : AnalyticsState)
    (h : analyticsConsistent s) : analyticsConsistent (run_actions calls s) := by
  induction calls generalizing s with
  | nil => exact h
  | cons c rest ih =>
    exact ih _ (log_user_action_consistent s c.1 c.2.1 c.2.2 h)

/-- C9: after any sequence of `log_user_action` calls starting from the empty
telemetry state, every action count equals the number of logged events with
that action type and every last-active entry equals the timestamp of that
user's most recent event; moreover each call appends exactly one event,
increments exactly the one count entry for its action type, and updates
exactly the one last-active entry for its user. -/
theorem C9_telemetry_invariant (calls : List (Int × String × Int)) :
    analyticsConsistent (run_actions calls initialAnalyticsState) ∧
    (∀ (s : AnalyticsState) (uid : Int) (act : String) (ts : Int),
      (log_user_action s uid act ts).user_actions
        = s.user_actions ++ [{ user_id := uid, action_type := act, timestamp := ts }] ∧
      (log_user_action s uid act ts).action_counts act = s.action_counts act + 1 ∧
      (∀ a, a ≠ act → (log_user_action s uid act ts).action_counts a = s.action_counts a) ∧
      (log_user_action s uid act ts).user_last_active uid = some ts ∧
      (∀ u, u ≠ uid → (log_user_action s uid act ts).user_last_active u = s.user_last_active u)) := by
  refine ⟨run_actions_consistent calls _ initial_consistent, ?_⟩
  intro s uid act ts
  refine ⟨rfl, by simp [log_user_action], ?_, by simp [log_user_action], ?_⟩
  · intro a ha; simp [log_user_action, ha]
  · intro u hu; simp [log_user_action, hu]

/- ===================================================================
   Section 2: API request signing (src/bot/aliexpress.py lines 40-59)
   =================================================================== -/

/-- Default value of the shared secret from config.py (line 13); the
environment override does not change the signing algorithm. -/
def ALIEXPRESS_APP_SECRET : String := "8ZR7b0XNh0DDSokcdW50ACF7yUCatSVY"

/-- Lexicographic order on (key, value) pairs; this is the order used by
Python's `sorted(params.items())` on a dict's items (tuples compare
componentwise). -/
def pairLex (a b : String × String) : Prop :=
  a.1 < b.1 ∨ (a.1 = b.1 ∧ a.2 ≤ b.2)

instance : DecidableRel pairLex := fun a b => by
  unfold pairLex; exact inferInstance

instance : IsTrans (String × String) pairLex := by
  constructor
  intro a b c hab hbc
  rcases hab with h1 | ⟨h1, h1v⟩ <;> rcases hbc with h2 | ⟨h2, h2v⟩
  · exact Or.inl (lt_trans h1 h2)
  · exact Or.inl (h2 ▸ h1)
  · exact Or.inl (h1 ▸ h2)
  · exact Or.inr ⟨h1.trans h2, le_trans h1v h2v⟩

instance : IsTotal (String × String) pairLex := by
  constructor
  intro a b
  rcases lt_trichotomy a.1 b.1 with h | h | h
  · exact Or.inl (Or.inl h)
  · rcases le_total a.2 b.2 with hv | hv
    · exact Or.inl (Or.inr ⟨h, hv⟩)
    · exact Or.inr (Or.inr ⟨h.symm, hv⟩)
  · exact Or.inr (Or.inl h)

instance : IsAntisymm (String × String) pairLex := by
  constructor
  intro a b hab hba
  rcases hab with h1 | ⟨h1, h1v⟩ <;> rcases hba with h2 | ⟨h2, h2v⟩
  · exact absurd (lt_trans h1 h2) (lt_irrefl a.1)
  · exact absurd h1 (h2 ▸ lt_irrefl b.1)
  · exact absurd h2 (h1 ▸ lt_irrefl a.1)
  · exact Prod.ext h1 (le_antisymm h1v h2v)

/-- Order on pairs by key only, as the spec sentence reads them:
"sorted by key ascending". -/
def keyLE (a b : String × String) : Prop := a.1 ≤ b.1

instance : DecidableRel keyLE := fun a b => by
  unfold keyLE; exact inferInstance

instance : IsTrans (String × String) keyLE := by
  constructor; intro a b c h1 h2; exact le_trans h1 h2

instance : IsTotal (String × String) keyLE := by
  constructor; intro a b; exact le_total a.1 b.1

/-- Translation of `generate_signature` (aliexpress.py lines 40-59).  The
parameter dict is modelled as a list of (key, stringified value) pairs; the
MD5 hex digest is an abstract function parameter (the claims are about the
string handed to it and the upper-casing, not about MD5 itself).  Python's
`sorted` is a stable sort with respect to tuple comparison; on lists it is
extensionally `List.insertionSort pairLex` (stable sorts of the same total
preorder agree pointwise). -/
def generate_signature (md5_hex : String → String) (params : List (String × String)) : String :=
  let sorted_params := List.insertionSort pairLex params
  let concatenated := sorted_params.foldl (fun acc kv => acc ++ kv.1 ++ kv.2) ALIEXPRESS_APP_SECRET
  (md5_hex (concatenated ++ ALIEXPRESS_APP_SECRET)).toUpper

/-- Concatenation of a list of strings with no separator. -/
def concatAll : List String → String
  | [] => ""
  | s :: rest => s ++ concatAll rest

/-- The signature as the specification words it: upper-cased MD5 hex digest
of the secret, followed by each (key, value) pair sorted by key ascending and
concatenated with no separator, followed by the secret again. -/
def signature_spec (md5_hex : String → String) (params : List (String × String)) : String :=
  (md5_hex (ALIEXPRESS_APP_SECRET
    ++ concatAll ((List.insertionSort keyLE params).map (fun kv => kv.1 ++ kv.2))
    ++ ALIEXPRESS_APP_SECRET)).toUpper

theorem foldl_append_concatAll (l : List (String × String)) (init : String) :
    l.foldl (fun acc kv => acc ++ kv.1 ++ kv.2) init
      = init ++ concatAll (l.map (fun kv => kv.1 ++ kv.2)) := by
  induction l generalizing init with
  | nil => simp [concatAll]
  | cons kv rest ih =>
    simp only [List.foldl_cons, List.map_cons, concatAll, ih]
    simp [String.append_assoc]

theorem insertionSort_pairLex_eq_keyLE (params : List (String × String))
    (h : (params.map Prod.fst).Nodup) :
    List.insertionSort pairLex params = List.insertionSort keyLE params := by
  have perm1 : (List.insertionSort pairLex params).Perm params :=
    List.perm_insertionSort pairLex params
  have perm2 : (List.insertionSort keyLE params).Perm params :=
    List.perm_insertionSort keyLE params
  have sorted1 : (List.insertionSort pairLex params).Sorted pairLex :=
    List.sorted_insertionSort pairLex params
  have sorted2 : (List.insertionSort keyLE params).Sorted keyLE :=
    List.sorted_insertionSort keyLE params
  have hnodup2 : ((List.insertionSort keyLE params).map Prod.fst).Nodup :=
    ((perm2.map Prod.fst).nodup_iff).mpr h
  have hne : (List.insertionSort keyLE params).Pairwise (fun a b => a.1 ≠ b.1) :=
    List.pairwise_map.mp hnodup2
  have sorted2' : (List.insertionSort keyLE params).Sorted pairLex := by
    have := List.Pairwise.and sorted2 hne
    exact this.imp (fun h => Or.inl (lt_of_le_of_ne h.1 h.2))
  exact List.eq_of_perm_of_sorted (perm1.trans perm2.symm) sorted1 sorted2'

/-- C4: for every parameter map (modelled as a pair list with distinct keys,
as a Python dict guarantees), the generated signature equals the upper-cased
MD5 hex digest of the string formed by the shared secret, then each
(key, stringified value) pair sorted by key ascending concatenated with no
separator, then the shared secret again. -/
theorem C4_signature (md5_hex : String → String) (params : List (String × String))
    (h : (params.map Prod.fst).Nodup) :
    generate_signature md5_hex params = signature_spec md5_hex params := by
  simp only [generate_signature, signature_spec]
  rw [foldl_append_concatAll, insertionSort_pairLex_eq_keyLE params h]

theorem C4_signature_witness :
    (([("method", "a.b.c"), ("app_key", "512082")] : List (String × String)).map Prod.fst).Nodup ∧
    generate_signature (fun s => s) [("method", "a.b.c"), ("app_key", "512082")]
      = signature_spec (fun s => s) [("method", "a.b.c"), ("app_key", "512082")] :=
  ⟨by decide, C4_signature (fun s => s) [("method", "a.b.c"), ("app_key", "512082")] (by decide)⟩

/- ===================================================================
   Section 3: Rate limiting (src/bot/aliexpress.py lines 20-38)
   =================================================================== -/

/-- The configured per-minute cap, config.py line 24. -/
def MAX_REQUESTS_PER_MINUTE : Nat := 30

/-- Translation of `respect_rate_limit` (aliexpress.py lines 22-38) as a pure
state transition.  The global `request_timestamps` list is the explicit state;
`now` models the `time.time()` call on entry.  Timestamps older than 60
seconds are purged; if the purged window still holds at least the cap, the
caller sleeps `60 - (now - oldest)` seconds when that is positive.  The
returned first component is the timestamp the call appends to the window
(`time.time()` after the optional sleep, i.e. the dispatch time, with time
idealised as advancing only during the sleep). -/
def respect_rate_limit (now : ℚ) (request_timestamps : List ℚ) : ℚ × List ℚ :=
  let purged := request_timestamps.filter (fun ts => decide (now - ts < 60))
  if MAX_REQUESTS_PER_MINUTE ≤ purged.length then
    let wait_time := 60 - (now - purged.headD 0)
    let dispatch := if 0 < wait_time then now + wait_time else now
    (dispatch, purged ++ [dispatch])
  else
    (now, purged ++ [now])

/-- Sequential requests: each list element is the arrival time of one call;
the result is the list of dispatch timestamps and the final window. -/
def run_requests : List ℚ → List ℚ → List ℚ × List ℚ
  | [], w => ([], w)
  | a :: rest, w =>
    let r := respect_rate_limit a w
    let next := run_requests rest r.2
    (r.1 :: next.1, next.2)

theorem run_requests_append (xs ys w) :
    run_requests (xs ++ ys) w
      = ((run_requests xs w).1 ++ (run_requests ys (run_requests xs w).2).1,
         (run_requests ys (run_requests xs w).2).2) := by
  induction xs generalizing w with
  | nil => simp [run_requests]
  | cons x rest ih =>
    simp only [List.cons_append]
    simp [run_requests, ih]

theorem run_requests_fill (as : List ℚ) (w : List ℚ) (t0 : ℚ)
    (hw : ∀ x ∈ w, t0 ≤ x ∧ x ≤ t0 + 1)
    (has : ∀ x ∈ as, t0 ≤ x ∧ x ≤ t0 + 1)
    (hlen : w.length + as.length ≤ MAX_REQUESTS_PER_MINUTE) :
    run_requests as w = (as, w ++ as) := by
  induction as generalizing w with
  | nil => simp [run_requests]
  | cons a rest ih =>
    have hfilter : w.filter (fun ts => decide (a - ts < 60)) = w := by
      apply List.filter_eq_self.mpr
      intro x hx
      have h1 := (hw x hx).1
      have h2 := (has a (by simp)).2
      simp only [decide_eq_true_eq]
      linarith
    have hlt : ¬ (MAX_REQUESTS_PER_MINUTE ≤ w.length) := by
      simp only [List.length_cons] at hlen
      omega
    have hstep : respect_rate_limit a w = (a, w ++ [a]) := by
      simp [respect_rate_limit, hfilter, hlt]
    have hband : ∀ x ∈ w ++ [a], t0 ≤ x ∧ x ≤ t0 + 1 := by
      intro x hx
      rcases List.mem_append.mp hx with h | h
      · exact hw x h
      · simp only [List.mem_singleton] at h
        subst h
        exact has x (by simp)
    have hlen' : (w ++ [a]).length + rest.length ≤ MAX_REQUESTS_PER_MINUTE := by
      simp only [List.length_append, List.length_cons, List.length_nil] at hlen ⊢
      omega
    have hrest : ∀ x ∈ rest, t0 ≤ x ∧ x ≤ t0 + 1 := fun x hx => has x (by simp [hx])
    rw [run_requests, hstep]
    simp only []
    rw [ih (w ++ [a]) hband hrest hlen']
    simp

/-- C5: starting from an empty window, when cap + 1 requests arrive
sequentially all within 1 second of the first (arrivals a, mid..., b, with
mid of length cap - 1), the first cap dispatch timestamps equal the arrival
times and the final dispatch timestamp is a + 60; in particular the last
dispatch is at least 60 seconds after the first. -/
theorem C5_rate_limiter (a : ℚ) (mid : List ℚ) (b : ℚ)
    (hmidlen : mid.length + 1 = MAX_REQUESTS_PER_MINUTE)
    (hmid : ∀ x ∈ mid, a ≤ x ∧ x ≤ a + 1)
    (hb1 : a ≤ b) (hb2 : b ≤ a + 1) :
    (run_requests ((a :: mid) ++ [b]) []).1 = (a :: mid) ++ [a + 60] ∧
    (run_requests ((a :: mid) ++ [b]) []).1.getLastD 0
      - (run_requests ((a :: mid) ++ [b]) []).1.headD 0 ≥ 60 := by
  have hband : ∀ x ∈ a :: mid, a ≤ x ∧ x ≤ a + 1 := by
    intro x hx
    rcases List.mem_cons.mp hx with h | h
    · subst h; constructor <;> linarith
    · exact hmid x h
  have hfill : run_requests (a :: mid) [] = (a :: mid, [] ++ (a :: mid)) := by
    apply run_requests_fill (a :: mid) [] a (by simp) hband
    simp only [List.length_nil, List.length_cons]
    omega
  have hfilter : (a :: mid).filter (fun ts => decide (b - ts < 60)) = a :: mid := by
    apply List.filter_eq_self.mpr
    intro x hx
    have h1 := (hband x hx).1
    simp only [decide_eq_true_eq]
    linarith
  have hcap : MAX_REQUESTS_PER_MINUTE ≤ (a :: mid).length := by
    simp only [List.length_cons]
    omega
  have hwait : (0:ℚ) < 60 - (b - a) := by linarith
  have hstep : respect_rate_limit b (a :: mid) = (a + 60, (a :: mid) ++ [a + 60]) := by
    simp only [respect_rate_limit, hfilter, hcap, if_pos, List.headD_cons]
    rw [if_pos hwait]
    have harith : b + (60 - (b - a)) = a + 60 := by ring
    rw [harith]
  have hrun : (run_requests ((a :: mid) ++ [b]) []).1 = (a :: mid) ++ [a + 60] := by
    rw [run_requests_append, hfill]
    simp [run_requests, hstep]
  refine ⟨hrun, ?_⟩
  rw [hrun, List.getLastD_concat]
  simp only [List.cons_append, List.headD_cons]
  linarith

theorem C5_rate_limiter_witness :
    (run_requests ((0 :: List.replicate 29 (0:ℚ)) ++ [0]) []).1
      = (0 :: List.replicate 29 (0:ℚ)) ++ [(0:ℚ) + 60] :=
  (C5_rate_limiter 0 (List.replicate 29 0) 0 (by decide)
    (by intro x hx; simp at hx; subst hx; norm_num) (le_refl 0) (by norm_num)).1

/- ===================================================================
   Section 4: JSON values and affiliate-link conversion
   (src/bot/aliexpress.py lines 183-232)
   =================================================================== -/

/-- Decoded JSON values (the possible results of `json.loads` and the decoded
HTTP response body).  Numbers are modelled as rationals. -/
inductive Json where
  | null : Json
  | bool : Bool → Json
  | num : ℚ → Json
  | str : String → Json
  | arr : List Json → Json
  | obj : List (String × Json) → Json

/-- Lookup of a key in a JSON object body (Python dict keys are unique, so
the first binding is the binding). -/
def dictGet (kvs : List (String × Json)) (k : String) : Option Json :=
  (kvs.find? (fun kv => kv.1 == k)).map (fun kv => kv.2)

/-- Python truthiness of a decoded JSON value: None, False, 0, empty string,
empty list and empty dict are falsy. -/
def truthy : Json → Bool
  | Json.null => false
  | Json.bool b => b
  | Json.num q => q != 0
  | Json.str s => s != ""
  | Json.arr l => !l.isEmpty
  | Json.obj l => !l.isEmpty

/-- Decimal digit characters of a natural number, most significant first,
with structural fuel (any fuel of at least the digit count, in particular
fuel = n, gives the digits). -/
def natCharsAux : Nat → Nat → List Char
  | 0, n => [Char.ofNat (48 + n % 10)]
  | fuel + 1, n =>
    if n < 10 then [Char.ofNat (48 + n)]
    else natCharsAux fuel (n / 10) ++ [Char.ofNat (48 + n % 10)]

/-- Decimal digit characters of a natural number, most significant first. -/
def natChars (n : Nat) : List Char := natCharsAux n n

/-- Decimal rendering of an integer. -/
def intStr (i : Int) : String :=
  if i < 0 then "-" ++ String.mk (natChars i.natAbs) else String.mk (natChars i.natAbs)

/-- A model of Python `str()` on a decoded JSON value, used where the source
lets a non-string value flow into a string position.  The exact digits do not
matter to any claim; what matters is that a truthy value never renders to the
empty string. -/
def pyStr : Json → String
  | Json.null => "None"
  | Json.bool b => if b then "True" else "False"
  | Json.num q => intStr q.num ++ (if q.den = 1 then "" else "/" ++ intStr q.den)
  | Json.str s => s
  | Json.arr _ => "[...]"
  | Json.obj _ => "\x7b...\x7d"

/-- The method name `aliexpress.affiliate.link.generate` and its response
envelope key (aliexpress.py lines 17 and 208). -/
def AE_AFFILIATE_LINK_GENERATE : String := "aliexpress.affiliate.link.generate"

def affiliate_result_key : String := AE_AFFILIATE_LINK_GENERATE ++ "_response"

/-- Translation of `convert_to_affiliate_link` (aliexpress.py lines 183-232)
from the point where the API response is available.  The argument `response`
models the value returned by `make_api_request` (`none` on any transport
failure, non-200 status, or API error payload); `json_loads` models
`json.loads` on the nested `result` string (`none` models a decode
exception).  Every Python runtime error raised inside the `try` block
(a non-dict where `in` or `.get` is used, a non-list indexed with `[0]`,
a non-string handed to `json.loads`) is caught by the broad `except` and
yields the original `product_url`, and so does every explicit
missing-key/empty-value branch. -/
def convert_to_affiliate_link (json_loads : String → Option Json)
    (product_url : String) (response : Option Json) : String :=
  match response with
  | none => product_url
  | some resp =>
    match resp with
    | Json.obj kvs =>
      match dictGet kvs affiliate_result_key with
      | none => product_url
      | some result =>
        match result with
        | Json.obj rkvs =>
          match dictGet rkvs "result" with
          | none => product_url
          | some rv =>
            if !truthy rv then product_url
            else
              match rv with
              | Json.str s =>
                match json_loads s with
                | none => product_url
                | some links =>
                  if !truthy links then product_url
                  else
                    match links with
                    | Json.obj lkvs =>
                      match dictGet lkvs "promotion_links" with
                      | none => product_url
                      | some pl =>
                        if !truthy pl then product_url
                        else
                          match pl with
                          | Json.arr (first :: _) =>
                            match first with
                            | Json.obj fkvs =>
                              match dictGet fkvs "promotion_link" with
                              | none => product_url
                              | some v => if truthy v then pyStr v else product_url
                            | _ => product_url
                          | _ => product_url
                    | _ => product_url
              | _ => product_url
        | _ => product_url
    | _ => product_url

/-- The promotion link successfully extracted from a response, when there is
one: the same walk as `convert_to_affiliate_link`, with every failure mapped
to `none` instead of to the fallback URL. -/
def promotionLinkOf (json_loads : String → Option Json) (response : Option Json) :
    Option String :=
  match response with
  | none => none
  | some resp =>
    match resp with
    | Json.obj kvs =>
      match dictGet kvs affiliate_result_key with
      | none => none
      | some result =>
        match result with
        | Json.obj rkvs =>
          match dictGet rkvs "result" with
          | none => none
          | some rv =>
            if !truthy rv then none
            else
              match rv with
              | Json.str s =>
                match json_loads s with
                | none => none
                | some links =>
                  if !truthy links then none
                  else
                    match links with
                    | Json.obj lkvs =>
                      match dictGet lkvs "promotion_links" with
                      | none => none
                      | some pl =>
                        if !truthy pl then none
                        else
                          match pl with
                          | Json.arr (first :: _) =>
                            match first with
                            | Json.obj fkvs =>
                              match dictGet fkvs "promotion_link" with
                              | none => none
                              | some v => if truthy v then some (pyStr v) else none
                            | _ => none
                          | _ => none
                    | _ => none
              | _ => none
        | _ => none
    | _ => none

theorem natCharsAux_ne_nil (fuel n : Nat) : natCharsAux fuel n ≠ [] := by
  cases fuel with
  | zero => simp [natCharsAux]
  | succ f =>
    rw [natCharsAux]
    split <;> simp

theorem natChars_ne_nil (n : Nat) : natChars n ≠ [] := natCharsAux_ne_nil n n

theorem intStr_ne_empty (i : Int) : intStr i ≠ "" := by
  unfold intStr
  split
  · intro hcontra
    have := congrArg String.data hcontra
    simp [String.data_append] at this
  · intro hcontra
    exact natChars_ne_nil i.natAbs (congrArg String.data hcontra)

theorem truthy_pyStr_ne_empty (v : Json) (h : truthy v = true) : pyStr v ≠ "" := by
  cases v with
  | null => simp [pyStr]
  | bool b => cases b <;> simp_all [truthy, pyStr]
  | num q =>
    simp only [pyStr]
    intro hcontra
    apply intStr_ne_empty q.num
    have := congrArg String.data hcontra
    simp only [String.data_append] at this
    rcases List.append_eq_nil.mp this with ⟨h1, _⟩
    exact String.ext h1
  | str s => simpa [truthy] using h
  | arr l => simp [pyStr]
  | obj l => simp [pyStr]

theorem convert_eq_promotionLinkOf (jl : String → Option Json) (url : String)
    (resp : Option Json) :
    convert_to_affiliate_link jl url resp = (promotionLinkOf jl resp).getD url := by
  unfold convert_to_affiliate_link promotionLinkOf
  repeat' split
  all_goals rfl

theorem promotionLink_ne_empty (jl : String → Option Json) (resp : Option Json) (p : String)
    (h : promotionLinkOf jl resp = some p) : p ≠ "" := by
  unfold promotionLinkOf at h
  repeat' split at h
  all_goals try exact Option.noConfusion h
  all_goals
    have h2 := Option.some.inj h
    subst h2
    exact truthy_pyStr_ne_empty _ (by assumption)

/-- C3: for every (nonempty) input URL, `convert_to_affiliate_link` never
returns the empty string: it returns the extracted promotion link (itself a
truthy, hence nonempty, value) when every parse step succeeds, and exactly
the input URL unchanged on any failure at any step (no response, missing
response key, missing or falsy result, decode failure, missing or empty
promotion_links list, missing or falsy promotion link field). -/
theorem C3_affiliate_fallback (jl : String → Option Json) (url : String)
    (resp : Option Json) (hurl : url ≠ "") :
    convert_to_affiliate_link jl url resp ≠ "" ∧
    (convert_to_affiliate_link jl url resp
        = (promotionLinkOf jl resp).getD url) ∧
    ((promotionLinkOf jl resp = none ∧ convert_to_affiliate_link jl url resp = url) ∨
      (∃ p, promotionLinkOf jl resp = some p ∧ p ≠ "" ∧
        convert_to_affiliate_link jl url resp = p)) := by
  have heq := convert_eq_promotionLinkOf jl url resp
  rcases hpl : promotionLinkOf jl resp with _ | p
  · rw [hpl] at heq
    simp only [Option.getD_none] at heq
    exact ⟨by rw [heq]; exact hurl, by rw [heq]; rfl, Or.inl ⟨rfl, heq⟩⟩
  · rw [hpl] at heq
    simp only [Option.getD_some] at heq
    have hp := promotionLink_ne_empty jl resp p hpl
    exact ⟨by rw [heq]; exact hp, by rw [heq]; rfl, Or.inr ⟨p, rfl, hp, heq⟩⟩

theorem C3_affiliate_fallback_witness :
    ("https://aliexpress.com/item/1.html" : String) ≠ "" ∧
    convert_to_affiliate_link (fun _ => none) "https://aliexpress.com/item/1.html" none ≠ "" :=
  ⟨by decide,
    (C3_affiliate_fallback (fun _ => none) "https://aliexpress.com/item/1.html" none
      (by decide)).1⟩

/- ===================================================================
   Section 5: Product details and the composed reply
   (src/bot/aliexpress.py lines 111-181, src/bot/utils.py lines 99-115,
    src/bot/handlers.py lines 101-158)
   =================================================================== -/

/-- Python `round()` (used at handlers.py line 132), modelled on rationals:
round to nearest, ties to even. -/
def py_round (q : ℚ) : ℤ :=
  if q - ⌊q⌋ = 1 / 2 then (if ⌊q⌋ % 2 = 0 then ⌊q⌋ else ⌊q⌋ + 1) else round q

/-- The product-details record built by `get_product_details`
(aliexpress.py lines 160-175): mandatory title, price and product id,
optional original price, rating and shipping cost. -/
structure ProductDetails where
  title : String
  price : ℚ
  product_id : String
  original_price : Option ℚ
  rating : Option ℚ
  shipping_cost : Option ℚ
deriving Repr, DecidableEq

/-- Translation of `sanitize_product_title` (utils.py lines 99-115): empty
title becomes the placeholder, titles longer than 100 characters are cut to
97 characters plus an ellipsis.  Note that nothing in the repository calls
this function. -/
def sanitize_product_title (title : String) : String :=
  if title = "" then "Unknown Product"
  else if 100 < title.length then title.take 97 ++ "..." else title

/-- The `float(product.get(key, {}).get('amount', 0))` idiom of
aliexpress.py lines 157-158 and 174.  `toFloat` models Python `float()`
(`none` models a raised ValueError/TypeError, which the broad `except`
turns into an overall `None`); a present non-dict value makes `.get` raise
AttributeError, likewise caught. -/
def getAmount (toFloat : Json → Option ℚ) (kvs : List (String × Json)) (key : String) :
    Option ℚ :=
  match (dictGet kvs key).getD (Json.obj []) with
  | Json.obj akvs => toFloat ((dictGet akvs "amount").getD (Json.num 0))
  | _ => none

/-- The shipping-cost step of `get_product_details` (aliexpress.py lines
173-175): only when `logistics_cost` is a key of the product is the field
added. -/
def buildShipping (toFloat : Json → Option ℚ) (kvs : List (String × Json))
    (pd : ProductDetails) : Option ProductDetails :=
  match dictGet kvs "logistics_cost" with
  | none => some pd
  | some lc =>
    match lc with
    | Json.obj lckvs =>
      match toFloat ((dictGet lckvs "amount").getD (Json.num 0)) with
      | some sc => some { pd with shipping_cost := some sc }
      | none => none
    | _ => none

/-- The title stored by `get_product_details` (aliexpress.py line 161):
`product.get('title', 'Unknown Product')` — the default applies only when
the key is absent; a present non-string value is kept and later rendered by
the reply f-string, modelled by `pyStr` here because the record field is
only ever used inside that f-string. -/
def titleOf (kvs : List (String × Json)) : String :=
  match dictGet kvs "title" with
  | some (Json.str t) => t
  | some v => pyStr v
  | none => "Unknown Product"

/-- Translation of the record construction of `get_product_details`
(aliexpress.py lines 156-177) from the first product object.  The title is
`product.get('title', 'Unknown Product')` — the default applies only when
the key is absent; the stored value is rendered by `pyStr` here because its
only use is inside the reply f-string.  The original price is included only
when positive and strictly above the price; the rating is included exactly
when `evaluation_rate` is a key of the product. -/
def build_product_details (toFloat : Json → Option ℚ) (product_id : String)
    (product : Json) : Option ProductDetails :=
  match product with
  | Json.obj kvs =>
    match getAmount toFloat kvs "target_app_sale_price",
          getAmount toFloat kvs "target_original_price" with
    | some price, some original_price =>
      let title := titleOf kvs
      let op : Option ℚ :=
        if 0 < original_price ∧ price < original_price then some original_price else none
      match dictGet kvs "evaluation_rate" with
      | some ev =>
        match toFloat ev with
        | some r =>
          buildShipping toFloat kvs
            { title := title, price := price, product_id := product_id,
              original_price := op, rating := some r, shipping_cost := none }
        | none => none
      | none =>
        buildShipping toFloat kvs
          { title := title, price := price, product_id := product_id,
            original_price := op, rating := none, shipping_cost := none }
    | _, _ => none
  | _ => none

/-- The method name `aliexpress.ds.product.get` and its response envelope
key (aliexpress.py lines 18 and 139). -/
def AE_DS_PRODUCT_GET : String := "aliexpress.ds.product.get"

def product_result_key : String := AE_DS_PRODUCT_GET ++ "_response"

/-- The envelope unwrapping of `get_product_details` (aliexpress.py lines
133-154) down to the first product object; every missing key, falsy value or
shape mismatch yields `none` (the broad `except` and the explicit early
returns coincide on this). -/
def parse_product_response (json_loads : String → Option Json)
    (response : Option Json) : Option Json :=
  match response with
  | none => none
  | some resp =>
    match resp with
    | Json.obj kvs =>
      match dictGet kvs product_result_key with
      | none => none
      | some result =>
        match result with
        | Json.obj rkvs =>
          match dictGet rkvs "result" with
          | none => none
          | some rv =>
            if !truthy rv then none
            else
              match rv with
              | Json.str s =>
                match json_loads s with
                | none => none
                | some products =>
                  if !truthy products then none
                  else
                    match products with
                    | Json.obj pkvs =>
                      match dictGet pkvs "products" with
                      | none => none
                      | some pl =>
                        if !truthy pl then none
                        else
                          match pl with
                          | Json.arr (first :: _) => some first
                          | _ => none
                    | _ => none
              | _ => none
        | _ => none
    | _ => none

/-- Translation of `get_product_details` (aliexpress.py lines 111-181) from
the point where the product id has been extracted and the API response is
available. -/
def get_product_details (json_loads : String → Option Json)
    (toFloat : Json → Option ℚ) (product_id : String) (response : Option Json) :
    Option ProductDetails :=
  (parse_product_response json_loads response).bind (build_product_details toFloat product_id)

/-- The title and current-price part of the reply (handlers.py lines
126-129).  `fstr` models Python str() on a float inside an f-string. -/
def titleLine (fstr : ℚ → String) (pd : ProductDetails) : String :=
  "🛍️ <b>" ++ pd.title ++ ("</b>\n\n💰 <b>Current Price:</b> $" ++ fstr pd.price ++ "\n")

/-- The conditional original-price and discount line (handlers.py lines
131-133): shown only when `original_price` is present, truthy and strictly
above the price; the discount is `round(((original - price) / original) * 100)`
rendered as a Python int. -/
def originalPriceLine (fstr : ℚ → String) (pd : ProductDetails) : String :=
  match pd.original_price with
  | some op =>
    if op ≠ 0 ∧ pd.price < op then
      "🏷️ <b>Original Price:</b> $" ++ fstr op ++ (" (Save "
        ++ intStr (py_round ((op - pd.price) / op * 100)) ++ "%)\n")
    else ""
  | none => ""

/-- The conditional shipping line (handlers.py lines 135-139): shown when
`shipping_cost` is present (including 0, which renders as Free). -/
def shippingLine (fstr : ℚ → String) (pd : ProductDetails) : String :=
  match pd.shipping_cost with
  | some sc =>
    if 0 < sc then "🚚 <b>Shipping:</b> $" ++ fstr sc ++ "\n"
    else "🚚 <b>Shipping:</b> Free\n"
  | none => ""

/-- The conditional rating line (handlers.py lines 141-142): the guard is
`if product.get('rating'):`, i.e. Python truthiness — present with value 0
shows nothing. -/
def ratingLine (fstr : ℚ → String) (pd : ProductDetails) : String :=
  match pd.rating with
  | some r => if r ≠ 0 then "⭐ <b>Rating:</b> " ++ fstr r ++ "/5\n" else ""
  | none => ""

/-- The closing affiliate-link part (handlers.py line 144). -/
def affiliateTail (affiliate_link : String) : String :=
  "\n🔗 <b>Affiliate Link:</b>\n" ++ affiliate_link

/-- The reply string built by `process_aliexpress_link` (handlers.py lines
126-144): the += chain is the concatenation of the five pieces above, the
skipped conditionals contributing the empty string. -/
def compose (fstr : ℚ → String) (pd : ProductDetails) (affiliate_link : String) : String :=
  titleLine fstr pd ++ originalPriceLine fstr pd ++ shippingLine fstr pd
    ++ ratingLine fstr pd ++ affiliateTail affiliate_link

/-- A model of Python `float()` adequate for concrete witnesses: defined on
JSON numbers. -/
def toFloatModel : Json → Option ℚ
  | Json.num q => some q
  | _ => none

theorem natCharsAux_mem (fuel n : Nat) (c : Char) (h : c ∈ natCharsAux fuel n) :
    ∃ k, k < 10 ∧ c = Char.ofNat (48 + k) := by
  induction fuel generalizing n with
  | zero =>
    simp only [natCharsAux, List.mem_singleton] at h
    exact ⟨n % 10, Nat.mod_lt _ (by omega), h⟩
  | succ f ih =>
    rw [natCharsAux] at h
    split at h
    · simp only [List.mem_singleton] at h
      exact ⟨n, by assumption, h⟩
    · rcases List.mem_append.mp h with h | h
      · exact ih _ h
      · simp only [List.mem_singleton] at h
        exact ⟨n % 10, Nat.mod_lt _ (by omega), h⟩

theorem star_not_mem_natCharsAux (fuel n : Nat) : ('⭐' : Char) ∉ natCharsAux fuel n := by
  intro h
  obtain ⟨k, hk, hc⟩ := natCharsAux_mem fuel n _ h
  interval_cases k <;> exact absurd hc (by decide)

theorem star_not_mem_intStr (i : ℤ) : ('⭐' : Char) ∉ (intStr i).data := by
  unfold intStr
  split
  · intro hmem
    rw [String.data_append] at hmem
    rcases List.mem_append.mp hmem with h | h
    · exact absurd h (by decide)
    · exact star_not_mem_natCharsAux _ _ h
  · exact star_not_mem_natCharsAux _ _

theorem star_not_mem_append (s t : String) (hs : ('⭐' : Char) ∉ s.data)
    (ht : ('⭐' : Char) ∉ t.data) : ('⭐' : Char) ∉ (s ++ t).data := by
  rw [String.data_append]
  intro h
  rcases List.mem_append.mp h with h | h
  · exact hs h
  · exact ht h

theorem star_not_mem_titleLine (fstr : ℚ → String) (pd : ProductDetails)
    (hfstr : ∀ q, ('⭐' : Char) ∉ (fstr q).data) (htitle : ('⭐' : Char) ∉ pd.title.data) :
    ('⭐' : Char) ∉ (titleLine fstr pd).data := by
  unfold titleLine
  apply star_not_mem_append
  · apply star_not_mem_append
    · decide
    · exact htitle
  · apply star_not_mem_append
    · apply star_not_mem_append
      · decide
      · exact hfstr _
    · decide

theorem star_not_mem_originalPriceLine (fstr : ℚ → String) (pd : ProductDetails)
    (hfstr : ∀ q, ('⭐' : Char) ∉ (fstr q).data) :
    ('⭐' : Char) ∉ (originalPriceLine fstr pd).data := by
  obtain ⟨t, p, pid, op, rt, sc⟩ := pd
  rcases op with _ | op
  · simp only [originalPriceLine]
    decide
  · simp only [originalPriceLine]
    split
    · apply star_not_mem_append
      · apply star_not_mem_append
        · decide
        · exact hfstr _
      · apply star_not_mem_append
        · apply star_not_mem_append
          · decide
          · exact star_not_mem_intStr _
        · decide
    · decide

theorem star_not_mem_shippingLine (fstr : ℚ → String) (pd : ProductDetails)
    (hfstr : ∀ q, ('⭐' : Char) ∉ (fstr q).data) :
    ('⭐' : Char) ∉ (shippingLine fstr pd).data := by
  obtain ⟨t, p, pid, op, rt, sc⟩ := pd
  rcases sc with _ | sc
  · simp only [shippingLine]
    decide
  · simp only [shippingLine]
    split
    · apply star_not_mem_append
      · apply star_not_mem_append
        · decide
        · exact hfstr _
      · decide
    · decide

theorem star_not_mem_affiliateTail (link : String) (hlink : ('⭐' : Char) ∉ link.data) :
    ('⭐' : Char) ∉ (affiliateTail link).data := by
  unfold affiliateTail
  apply star_not_mem_append
  · decide
  · exact hlink

theorem star_mem_ratingLine (fstr : ℚ → String) (pd : ProductDetails) :
    (('⭐' : Char) ∈ (ratingLine fstr pd).data ↔ ∃ r, pd.rating = some r ∧ r ≠ 0) := by
  obtain ⟨t, p, pid, op, rt, sc⟩ := pd
  rcases rt with _ | r
  · simp only [ratingLine]
    constructor
    · intro h
      exact absurd h (by decide)
    · rintro ⟨r, hr, -⟩
      exact Option.noConfusion hr
  · by_cases h0 : r = 0
    · subst h0
      simp only [ratingLine]
      rw [if_neg (by simp)]
      constructor
      · intro h
        exact absurd h (by decide)
      · rintro ⟨r2, hr2, hr20⟩
        exact absurd (Option.some.inj hr2).symm hr20
    · simp only [ratingLine]
      rw [if_pos h0]
      constructor
      · intro _
        exact ⟨r, rfl, h0⟩
      · intro _
        rw [String.data_append, String.data_append]
        exact List.mem_append.mpr (Or.inl (List.mem_append.mpr (Or.inl (by decide))))

/-- C6 counterexample: a ProductDetails record whose rating field is present
with value 0. -/
def pdRatingZero : ProductDetails :=
  { title := "T", price := 10, product_id := "9", original_price := none,
    rating := some 0, shipping_cost := none }

/-- C6, as stated, is false on the code: a present rating equal to 0 fails
the truthiness guard at handlers.py line 141, so the composed reply contains
no rating line (no star indicator) even though the field is present. -/
theorem C6_rating_zero_counterexample :
    pdRatingZero.rating = some 0 ∧
    ('⭐' : Char) ∉ (compose (fun _ => "10.0") pdRatingZero "L").data :=
  ⟨rfl, by decide⟩

/-- C6 (amended): the composed reply contains the rating line exactly when
the rating field is present with a truthy (nonzero) value — a present rating
equal to 0 shows no line.  The hygiene hypotheses record that the number
rendering, the title and the affiliate link contain no star character, as in
the source (Python float rendering emits digits, signs, dots and exponents
only). -/
theorem C6_rating_truthiness (fstr : ℚ → String) (pd : ProductDetails) (link : String)
    (hfstr : ∀ q, ('⭐' : Char) ∉ (fstr q).data)
    (htitle : ('⭐' : Char) ∉ pd.title.data)
    (hlink : ('⭐' : Char) ∉ link.data) :
    (('⭐' : Char) ∈ (compose fstr pd link).data ↔ ∃ r, pd.rating = some r ∧ r ≠ 0) := by
  unfold compose
  constructor
  · intro h
    simp only [String.data_append, List.mem_append] at h
    rcases h with ((((h | h) | h) | h) | h)
    · exact absurd h (star_not_mem_titleLine fstr pd hfstr htitle)
    · exact absurd h (star_not_mem_originalPriceLine fstr pd hfstr)
    · exact absurd h (star_not_mem_shippingLine fstr pd hfstr)
    · exact (star_mem_ratingLine fstr pd).mp h
    · exact absurd h (star_not_mem_affiliateTail link hlink)
  · intro hex
    have := (star_mem_ratingLine fstr pd).mpr hex
    simp only [String.data_append, List.mem_append]
    tauto

/-- A ProductDetails record with a truthy rating, for the C6 witness. -/
def pdRatingFive : ProductDetails :=
  { title := "T", price := 10, product_id := "9", original_price := none,
    rating := some 5, shipping_cost := none }

theorem C6_rating_truthiness_witness :
    ('⭐' : Char) ∈ (compose (fun _ => "5.0") pdRatingFive "L").data := by
  apply (C6_rating_truthiness (fun _ => "5.0") pdRatingFive "L" ?_ ?_ ?_).mpr ⟨5, rfl, by norm_num⟩
  · intro q
    show ('⭐' : Char) ∉ ("5.0" : String).data
    decide
  · decide
  · decide

theorem buildShipping_keeps (toFloat : Json → Option ℚ) (kvs : List (String × Json))
    (pd0 pd : ProductDetails) (h : buildShipping toFloat kvs pd0 = some pd) :
    pd.title = pd0.title ∧ pd.rating = pd0.rating ∧ pd.price = pd0.price ∧
    pd.original_price = pd0.original_price := by
  unfold buildShipping at h
  repeat' split at h
  all_goals try exact Option.noConfusion h
  all_goals
    have h2 := Option.some.inj h
    subst h2
    exact ⟨rfl, rfl, rfl, rfl⟩

theorem build_title_eq (toFloat : Json → Option ℚ) (pid : String)
    (kvs : List (String × Json)) (pd : ProductDetails)
    (hb : build_product_details toFloat pid (Json.obj kvs) = some pd) :
    pd.title = titleOf kvs := by
  simp only [build_product_details] at hb
  repeat' split at hb
  all_goals try exact Option.noConfusion hb
  all_goals exact (buildShipping_keeps _ _ _ _ hb).1

theorem title_infix_titleLine (fstr : ℚ → String) (pd : ProductDetails) :
    pd.title.data <:+: (titleLine fstr pd).data := by
  unfold titleLine
  rw [String.data_append, String.data_append]
  exact List.infix_append _ _ _

theorem titleLine_infix_compose (fstr : ℚ → String) (pd : ProductDetails) (link : String) :
    (titleLine fstr pd).data <:+: (compose fstr pd link).data := by
  unfold compose
  simp only [String.data_append]
  exact ⟨[], (originalPriceLine fstr pd).data ++ (shippingLine fstr pd).data
    ++ (ratingLine fstr pd).data ++ (affiliateTail link).data, by simp [List.append_assoc]⟩

theorem title_infix_compose (fstr : ℚ → String) (pd : ProductDetails) (link : String) :
    pd.title.data <:+: (compose fstr pd link).data :=
  (title_infix_titleLine fstr pd).trans (titleLine_infix_compose fstr pd link)

/-- C7 counterexample data: a product whose title is present but empty, and
one whose title is 101 characters long. -/
def emptyTitleProduct : Json :=
  Json.obj [("title", Json.str ""), ("target_app_sale_price", Json.obj [("amount", Json.num 10)])]

def longTitle : String := String.mk (List.replicate 101 'a')

def longTitleProduct : Json :=
  Json.obj [("title", Json.str longTitle),
    ("target_app_sale_price", Json.obj [("amount", Json.num 10)])]

def pdLongTitle : ProductDetails :=
  { title := longTitle, price := 10, product_id := "77", original_price := none,
    rating := none, shipping_cost := none }

/-- C7, as stated, is false on the code in two ways: a present-but-empty
source title is kept as the empty string, not replaced by the placeholder
(the default of `product.get('title', 'Unknown Product')` fires only when
the key is absent); and no truncation is ever applied — a 101-character
title is stored verbatim and appears verbatim in the composed reply
(`sanitize_product_title`, which would truncate, is never called). -/
theorem C7_title_counterexample :
    (build_product_details toFloatModel "77" emptyTitleProduct).map ProductDetails.title
      = some "" ∧
    ("" : String) ≠ "Unknown Product" ∧
    build_product_details toFloatModel "77" longTitleProduct = some pdLongTitle ∧
    100 < longTitle.length ∧
    longTitle.data <:+: (compose (fun _ => "10.0") pdLongTitle "L").data := by
  refine ⟨by decide, by decide, by decide, by decide, ?_⟩
  exact title_infix_compose (fun _ => "10.0") pdLongTitle "L"

/-- C7 (amended): the placeholder applies exactly when the title key is
absent — a present empty title is kept empty — and the stored title appears
untruncated in the reply; `sanitize_product_title` implements the
empty-to-placeholder default and the 97-characters-plus-ellipsis truncation
described by the claim, but nothing invokes it. -/
theorem C7_title_handling (toFloat : Json → Option ℚ) (pid : String)
    (kvs : List (String × Json)) (pd : ProductDetails)
    (hb : build_product_details toFloat pid (Json.obj kvs) = some pd) :
    (∀ t, dictGet kvs "title" = some (Json.str t) → pd.title = t) ∧
    (dictGet kvs "title" = none → pd.title = "Unknown Product") ∧
    (∀ fstr link, pd.title.data <:+: (compose fstr pd link).data) ∧
    sanitize_product_title "" = "Unknown Product" ∧
    (∀ s : String, 100 < s.length → sanitize_product_title s = s.take 97 ++ "...") := by
  have htitle := build_title_eq toFloat pid kvs pd hb
  refine ⟨?_, ?_, ?_, rfl, ?_⟩
  · intro t ht
    rw [htitle]
    unfold titleOf
    rw [ht]
  · intro ht
    rw [htitle]
    unfold titleOf
    rw [ht]
  · intro fstr link
    exact title_infix_compose fstr pd link
  · intro s hs
    have hne : s ≠ "" := by
      intro hcontra
      subst hcontra
      exact absurd hs (by decide)
    unfold sanitize_product_title
    rw [if_neg hne, if_pos hs]

theorem C7_title_handling_witness :
    build_product_details toFloatModel "77" longTitleProduct = some pdLongTitle ∧
    pdLongTitle.title = longTitle :=
  ⟨by decide,
    (C7_title_handling toFloatModel "77"
      [("title", Json.str longTitle), ("target_app_sale_price", Json.obj [("amount", Json.num 10)])]
      pdLongTitle (by decide)).1 longTitle rfl⟩

/-- C8: whenever the original price is present (as constructed, positive and
strictly above the price), the composed reply contains the discount text
rendering `py_round (100 * (original - price) / original)` — Python
`round(((original - price) / original) * 100)`, the two arguments being
equal rationals. -/
theorem C8_discount (fstr : ℚ → String) (pd : ProductDetails) (link : String) (op : ℚ)
    (hop : pd.original_price = some op) (hop0 : 0 < op) (hgt : pd.price < op) :
    ("(Save " ++ intStr (py_round (100 * (op - pd.price) / op)) ++ "%)").data
      <:+: (compose fstr pd link).data := by
  have harg : 100 * (op - pd.price) / op = (op - pd.price) / op * 100 := by ring
  rw [harg]
  have h1 : (" (Save " : String) = " " ++ "(Save " := by decide
  have h2 : ("%)\n" : String) = "%)" ++ "\n" := by decide
  have hline : originalPriceLine fstr pd
      = ("🏷️ <b>Original Price:</b> $" ++ fstr op ++ " ")
        ++ ("(Save " ++ intStr (py_round ((op - pd.price) / op * 100)) ++ "%)") ++ "\n" := by
    obtain ⟨t, p, pid, opf, rt, sc⟩ := pd
    replace hop : opf = some op := hop
    subst hop
    replace hgt : p < op := hgt
    simp only [originalPriceLine]
    rw [if_pos ⟨ne_of_gt hop0, hgt⟩]
    rw [h1, h2]
    simp only [String.append_assoc]
  have hin1 : ("(Save " ++ intStr (py_round ((op - pd.price) / op * 100)) ++ "%)").data
      <:+: (originalPriceLine fstr pd).data := by
    rw [hline, String.data_append, String.data_append]
    exact List.infix_append _ _ _
  have hin2 : (originalPriceLine fstr pd).data <:+: (compose fstr pd link).data := by
    unfold compose
    simp only [String.data_append]
    exact ⟨(titleLine fstr pd).data,
      (shippingLine fstr pd).data ++ (ratingLine fstr pd).data ++ (affiliateTail link).data,
      by simp [List.append_assoc]⟩
  exact hin1.trans hin2

/-- C8 witness data: price 80, original price 100. -/
def pdDiscount : ProductDetails :=
  { title := "T", price := 80, product_id := "1", original_price := some 100,
    rating := none, shipping_cost := none }

theorem C8_discount_witness :
    (("(Save " ++ intStr (py_round (100 * ((100:ℚ) - pdDiscount.price) / 100)) ++ "%)").data
      <:+: (compose (fun _ => "80.0") pdDiscount "L").data) ∧
    intStr (py_round (100 * ((100:ℚ) - pdDiscount.price) / 100)) = "20" := by
  constructor
  · exact C8_discount (fun _ => "80.0") pdDiscount "L" 100 rfl (by norm_num) (by decide)
  · have harg : 100 * ((100:ℚ) - pdDiscount.price) / 100 = 20 := by
      show 100 * ((100:ℚ) - 80) / 100 = 20
      norm_num
    rw [harg]
    have h20 : py_round 20 = 20 := by
      unfold py_round
      norm_num
    rw [h20]
    decide

/- ===================================================================
   Section 6: URL parsing and product-id extraction
   (src/bot/utils.py lines 49-86; Python stdlib urllib.parse modelled
    after CPython 3.11: urlparse/urlsplit, parse_qs, unquote)
   Python strings are modelled as List Char (sequences of code points).
   =================================================================== -/

/-- Split at the first occurrence of a character: Python `s.split(c, 1)`
and `s.find(c)`; `none` when the character does not occur. -/
def splitOnceL (c : Char) : List Char → Option (List Char × List Char)
  | [] => none
  | x :: rest =>
    if x = c then some ([], rest)
    else
      match splitOnceL c rest with
      | none => none
      | some (a, b) => some (x :: a, b)

/-- Split a list at the first occurrence of the separator `c0 :: sep`,
returning the part before it and the part after it. -/
def breakOnSep (c0 : Char) (sep : List Char) : List Char → Option (List Char × List Char)
  | [] => none
  | x :: rest =>
    if x = c0 ∧ sep.isPrefixOf rest then some ([], rest.drop sep.length)
    else
      match breakOnSep c0 sep rest with
      | none => none
      | some (a, b) => some (x :: a, b)

/-- Python `s.split(sep)` for the nonempty separator `c0 :: sep`, written
with structural fuel so that it evaluates inside the kernel; each removed
separator consumes at least one character, so fuel `s.length` (used by
`splitOnL`) always suffices. -/
def splitGo (c0 : Char) (sep : List Char) : Nat → List Char → List (List Char)
  | 0, s => [s]
  | fuel + 1, s =>
    match breakOnSep c0 sep s with
    | none => [s]
    | some (a, b) => a :: splitGo c0 sep fuel b

/-- Python `s.split(sep)` for the nonempty separator `c0 :: sep`. -/
def splitOnL (c0 : Char) (sep : List Char) (s : List Char) : List (List Char) :=
  splitGo c0 sep s.length s

/-- Python `pat in s` (substring containment). -/
def containsSub (pat : List Char) : List Char → Bool
  | [] => pat.isEmpty
  | s@(_ :: rest) => pat.isPrefixOf s || containsSub pat rest

/-- Python `s.strip(c)` for a single strip character. -/
def stripChars (c : Char) (s : List Char) : List Char :=
  ((s.dropWhile (fun x => x = c)).reverse.dropWhile (fun x => x = c)).reverse

/-- The value of a hexadecimal digit character, `none` otherwise. -/
def hexDigit? (c : Char) : Option Nat :=
  if '0' ≤ c ∧ c ≤ '9' then some (c.toNat - 48)
  else if 'a' ≤ c ∧ c ≤ 'f' then some (c.toNat - 87)
  else if 'A' ≤ c ∧ c ≤ 'F' then some (c.toNat - 55)
  else none

/-- Percent-decoding, Python `urllib.parse.unquote`: a '%' followed by two
hex digits becomes the character with that code, anything else is kept
(CPython additionally assembles consecutive decoded bytes into UTF-8
sequences with error replacement; that refinement only shortens the result
further and no claim depends on it). -/
def unquoteGo : Nat → List Char → List Char
  | _, [] => []
  | 0, s => s
  | fuel + 1, c :: rest =>
    if c = '%' then
      match rest with
      | h1 :: h2 :: rest2 =>
        match hexDigit? h1, hexDigit? h2 with
        | some a, some b => Char.ofNat (16 * a + b) :: unquoteGo fuel rest2
        | _, _ => '%' :: unquoteGo fuel rest
      | _ => c :: unquoteGo fuel rest
    else c :: unquoteGo fuel rest

/-- Python `urllib.parse.unquote`, with structural fuel; every step consumes
at least one character, so fuel `s.length` always suffices. -/
def unquote (s : List Char) : List Char := unquoteGo s.length s

/-- Python `unquote_plus`: plus signs become spaces, then percent-decode. -/
def unquote_plus (s : List Char) : List Char :=
  unquote (s.map (fun c => if c = '+' then ' ' else c))

/-- Translation of `urllib.parse.parse_qsl` with default arguments: split
on '&', skip empty fields, skip fields with no '=', skip fields with an
empty value, and percent-decode (with plus-to-space) both name and value. -/
def parse_qsl (qs : List Char) : List (List Char × List Char) :=
  (splitOnL '&' [] qs).filterMap (fun nv =>
    if nv = [] then none
    else
      match splitOnceL '=' nv with
      | none => none
      | some (n, v) => if v = [] then none else some (unquote_plus n, unquote_plus v))

/-- The source's `parse_qs(query)['dl_target_url'][0]` access pattern:
`parse_qs` groups `parse_qsl` pairs by key preserving order, so index 0 is
the first pair whose (decoded) name is the key. -/
def qsLookup (key : List Char) (qs : List Char) : Option (List Char) :=
  (((parse_qsl qs).filter (fun p => decide (p.1 = key))).head?).map (fun p => p.2)

/-- The result of `urllib.parse.urlparse`. -/
structure UrlParts where
  scheme : List Char
  netloc : List Char
  path : List Char
  params : List Char
  query : List Char
  fragment : List Char
deriving Repr, DecidableEq

/-- Characters allowed in a URL scheme (CPython `scheme_chars`). -/
def schemeChar (c : Char) : Bool :=
  c.isAlpha || c.isDigit || c = '+' || c = '-' || c = '.'

/-- Scheme recognition of CPython urlsplit: a ':' preceded by a nonempty
run of scheme characters starting with an ASCII letter splits off the
(lower-cased) scheme. -/
def splitScheme (url : List Char) : List Char × List Char :=
  match splitOnceL ':' url with
  | none => ([], url)
  | some (before, after) =>
    match before with
    | [] => ([], url)
    | c :: _ =>
      if c.isAlpha ∧ before.all schemeChar then (before.map Char.toLower, after)
      else ([], url)

/-- A character ending the netloc component (CPython `_splitnetloc`). -/
def netlocEnd (c : Char) : Bool := c = '/' || c = '?' || c = '#'

/-- The `_splitparams` step of urlparse: parameters after a ';' in the last
path segment are split off the path. -/
def splitParamsL (s : List Char) : List Char × List Char :=
  if ';' ∈ s then
    if '/' ∈ s then
      let afterLast := (s.reverse.takeWhile (fun c => c ≠ '/')).reverse
      let beforeIncl := s.take (s.length - afterLast.length)
      match splitOnceL ';' afterLast with
      | none => (s, [])
      | some (a, b) => (beforeIncl ++ a, b)
    else
      match splitOnceL ';' s with
      | none => (s, [])
      | some (a, b) => (a, b)
  else (s, [])

/-- Fragment, query and params extraction from the post-netloc remainder
(in urlsplit order: '#' split first, then '?', then `_splitparams`). -/
def mkParts (scheme netloc rest : List Char) : UrlParts :=
  let fr := match splitOnceL '#' rest with
    | some (a, b) => (a, b)
    | none => (rest, [])
  let qr := match splitOnceL '?' fr.1 with
    | some (a, b) => (a, b)
    | none => (fr.1, [])
  let pp := splitParamsL qr.1
  { scheme := scheme, netloc := netloc, path := pp.1, params := pp.2,
    query := qr.2, fragment := fr.2 }

/-- Translation of `urllib.parse.urlparse` (CPython 3.11): strip unsafe
bytes (tab, CR, LF), split the scheme, split the netloc after a leading
'//' (raising ValueError — modelled as `none` — on an unmatched bracket in
the netloc), then fragment, query and params. -/
def urlparse (url0 : List Char) : Option UrlParts :=
  let url1 := url0.filter (fun c => !(c = '\t' || c = '\r' || c = '\n'))
  let sr := splitScheme url1
  match sr.2 with
  | '/' :: '/' :: rest2 =>
    let netloc := rest2.takeWhile (fun c => !netlocEnd c)
    let rest3 := rest2.dropWhile (fun c => !netlocEnd c)
    if ('[' ∈ netloc ∧ ']' ∉ netloc) ∨ (']' ∈ netloc ∧ '[' ∉ netloc) then none
    else some (mkParts sr.1 netloc rest3)
  | rest1 => some (mkParts sr.1 [] rest1)

def itemChars : List Char := "item".data

def sClickNetloc : List Char := "s.click.aliexpress.com".data

def dlTargetKey : List Char := "dl_target_url".data

/-- One evaluation step of `extract_product_id` (utils.py lines 49-86),
parameterised by the function used for the recursive call on the embedded
target URL:
  * a parse error (ValueError) is caught by the broad except and gives None;
  * if 'item' occurs in the path, the id is the segment after the first
    '/item/' up to the first '.'; when 'item' occurs without '/item/', the
    `[1]` raises IndexError, caught by the except, giving None;
  * else, for the short-redirect netloc, recurse on the first
    `dl_target_url` query value when present, else fall through to None;
  * else, when the path has at least three '/'-separated pieces and the
    second stripped segment ends in '.html', the id is that segment up to
    the first '.';
  * else None. -/
def extract_step (recurse : List Char → Option (List Char)) (link : List Char) :
    Option (List Char) :=
  match urlparse link with
  | none => none
  | some u =>
    if containsSub itemChars u.path then
      match splitOnL '/' "item/".data u.path with
      | _ :: second :: _ => some ((splitOnL '.' [] second).headD [])
      | _ => none
    else if u.netloc = sClickNetloc then
      match qsLookup dlTargetKey u.query with
      | some target => recurse target
      | none => none
    else if 3 ≤ (splitOnL '/' [] u.path).length then
      match splitOnL '/' [] (stripChars '/' u.path) with
      | _ :: second :: _ =>
        if ".html".data.isSuffixOf second then some ((splitOnL '.' [] second).headD [])
        else none
      | _ => none
    else none

/-- The fuel-indexed unfolding of `extract_product_id`; each recursive call
consumes one unit of fuel. -/
def extract_product_id_fuel : Nat → List Char → Option (List Char)
  | 0, _ => none
  | fuel + 1, link => extract_step (extract_product_id_fuel fuel) link

/-- Translation of `extract_product_id` (utils.py lines 49-86).  The source
recursion has no explicit depth bound; it terminates because each embedded
target URL is strictly shorter than the URL that carries it, so fuel
`link.length + 1` always suffices (proved below). -/
def extract_product_id (link : List Char) : Option (List Char) :=
  extract_product_id_fuel (link.length + 1) link

theorem unquoteGo_length_le : ∀ (fuel : Nat) (s : List Char),
    (unquoteGo fuel s).length ≤ s.length := by
  intro fuel
  induction fuel with
  | zero =>
    intro s
    match s with
    | [] => exact Nat.le_refl _
    | c :: rest => exact Nat.le_refl _
  | succ f ih =>
    intro s
    match s with
    | [] => exact Nat.le_refl _
    | c :: rest =>
      by_cases hc : c = '%'
      · subst hc
        match rest with
        | [] => simp [unquoteGo]
        | [h1] =>
          have := ih [h1]
          simp only [unquoteGo, if_pos rfl] at this ⊢
          simp at this ⊢
          omega
        | h1 :: h2 :: rest2 =>
          simp only [unquoteGo, if_pos rfl]
          cases hh1 : hexDigit? h1 with
          | none =>
            cases hh2 : hexDigit? h2 with
            | none =>
              have := ih (h1 :: h2 :: rest2)
              simp at this ⊢
              omega
            | some b =>
              have := ih (h1 :: h2 :: rest2)
              simp at this ⊢
              omega
          | some a =>
            cases hh2 : hexDigit? h2 with
            | none =>
              have := ih (h1 :: h2 :: rest2)
              simp at this ⊢
              omega
            | some b =>
              have := ih rest2
              simp at this ⊢
              omega
      · simp only [unquoteGo, if_neg hc, List.length_cons]
        have := ih rest
        omega

theorem unquote_length_le (s : List Char) : (unquote s).length ≤ s.length :=
  unquoteGo_length_le s.length s

theorem unquote_plus_length_le (s : List Char) : (unquote_plus s).length ≤ s.length := by
  unfold unquote_plus
  calc (unquote (s.map (fun c => if c = '+' then ' ' else c))).length
      ≤ (s.map (fun c => if c = '+' then ' ' else c)).length := unquote_length_le _
    _ = s.length := List.length_map _ _

theorem splitOnceL_bounds (c : Char) : ∀ (s a b : List Char),
    splitOnceL c s = some (a, b) → a.length < s.length ∧ b.length < s.length := by
  intro s
  induction s with
  | nil => intro a b h; exact Option.noConfusion h
  | cons x rest ih =>
    intro a b h
    rw [splitOnceL] at h
    split at h
    · obtain ⟨ha, hb⟩ := Prod.mk.injEq .. ▸ Option.some.inj h
      subst ha
      subst hb
      constructor <;> simp
    · split at h
      · exact Option.noConfusion h
      · next a' b' heq =>
        obtain ⟨ha, hb⟩ := Prod.mk.injEq .. ▸ Option.some.inj h
        subst ha
        subst hb
        obtain ⟨h1, h2⟩ := ih a' b' heq
        constructor <;> simp <;> omega

theorem breakOnSep_bounds (c0 : Char) (sep : List Char) : ∀ (s a b : List Char),
    breakOnSep c0 sep s = some (a, b) → a.length < s.length ∧ b.length < s.length := by
  intro s
  induction s with
  | nil => intro a b h; exact Option.noConfusion h
  | cons x rest ih =>
    intro a b h
    rw [breakOnSep] at h
    split at h
    · obtain ⟨ha, hb⟩ := Prod.mk.injEq .. ▸ Option.some.inj h
      subst ha
      subst hb
      refine ⟨by simp, ?_⟩
      have := List.length_drop sep.length rest
      simp only [List.length_cons, this]
      omega
    · split at h
      · exact Option.noConfusion h
      · next a' b' heq =>
        obtain ⟨ha, hb⟩ := Prod.mk.injEq .. ▸ Option.some.inj h
        subst ha
        subst hb
        obtain ⟨h1, h2⟩ := ih a' b' heq
        constructor <;> simp <;> omega

theorem splitGo_piece_le (c0 : Char) (sep : List Char) : ∀ (fuel : Nat) (s p : List Char),
    p ∈ splitGo c0 sep fuel s → p.length ≤ s.length := by
  intro fuel
  induction fuel with
  | zero =>
    intro s p h
    simp only [splitGo, List.mem_singleton] at h
    subst h
    exact Nat.le_refl _
  | succ f ih =>
    intro s p h
    rw [splitGo] at h
    split at h
    · simp only [List.mem_singleton] at h
      subst h
      exact Nat.le_refl _
    · next a b heq =>
      obtain ⟨h1, h2⟩ := breakOnSep_bounds c0 sep s a b heq
      rcases List.mem_cons.mp h with h | h
      · subst h; omega
      · have := ih b p h
        omega

theorem splitOnL_piece_le (c0 : Char) (sep : List Char) (s p : List Char)
    (h : p ∈ splitOnL c0 sep s) : p.length ≤ s.length :=
  splitGo_piece_le c0 sep s.length s p h

theorem parse_qsl_value_lt (qs : List Char) (n v : List Char)
    (h : (n, v) ∈ parse_qsl qs) : v.length < qs.length := by
  unfold parse_qsl at h
  obtain ⟨nv, hnv, hf⟩ := List.mem_filterMap.mp h
  have hle := splitOnL_piece_le '&' [] qs nv hnv
  split at hf
  · exact Option.noConfusion hf
  · split at hf
    · exact Option.noConfusion hf
    · next n' v' heq =>
      split at hf
      · exact Option.noConfusion hf
      · obtain ⟨hn, hv⟩ := Prod.mk.injEq .. ▸ Option.some.inj hf
        subst hv
        have h1 := (splitOnceL_bounds '=' nv n' v' heq).2
        have h2 := unquote_plus_length_le v'
        omega

theorem head?_mem {α : Type} : ∀ (l : List α) (x : α), l.head? = some x → x ∈ l := by
  intro l x h
  cases l with
  | nil => exact Option.noConfusion h
  | cons a rest =>
    simp only [List.head?_cons, Option.some.injEq] at h
    subst h
    exact List.mem_cons_self _ _

theorem qsLookup_lt (key qs v : List Char) (h : qsLookup key qs = some v) :
    v.length < qs.length := by
  unfold qsLookup at h
  obtain ⟨p, hp, hv⟩ := Option.map_eq_some'.mp h
  subst hv
  have hmem := List.mem_of_mem_filter (head?_mem _ _ hp)
  exact parse_qsl_value_lt qs p.1 p.2 hmem

theorem splitScheme_snd_le (s : List Char) : (splitScheme s).2.length ≤ s.length := by
  unfold splitScheme
  cases h : splitOnceL ':' s with
  | none => exact Nat.le_refl _
  | some ab =>
    obtain ⟨before, after⟩ := ab
    match before with
    | [] => exact Nat.le_refl _
    | c :: a' =>
      simp only []
      split
      · exact Nat.le_of_lt (splitOnceL_bounds ':' s (c :: a') after h).2
      · exact Nat.le_refl _

theorem mkParts_query_le (scheme netloc rest : List Char) :
    (mkParts scheme netloc rest).query.length ≤ rest.length := by
  unfold mkParts
  cases h1 : splitOnceL '#' rest with
  | none =>
    cases h2 : splitOnceL '?' rest with
    | none => simp [h1, h2]
    | some ab =>
      have := (splitOnceL_bounds '?' rest ab.1 ab.2 (by rw [h2])).2
      simp only [h1, h2]
      omega
  | some ab =>
    have hb := (splitOnceL_bounds '#' rest ab.1 ab.2 (by rw [h1])).1
    cases h2 : splitOnceL '?' ab.1 with
    | none => simp [h1, h2]
    | some cd =>
      have := (splitOnceL_bounds '?' ab.1 cd.1 cd.2 (by rw [h2])).2
      simp only [h1, h2]
      omega

theorem urlparse_query_le (link : List Char) (u : UrlParts) (h : urlparse link = some u) :
    u.query.length ≤ link.length := by
  simp only [urlparse] at h
  have h1 : (link.filter (fun c => !(c = '\t' || c = '\r' || c = '\n'))).length ≤ link.length :=
    List.length_filter_le _ _
  have h2 := splitScheme_snd_le (link.filter (fun c => !(c = '\t' || c = '\r' || c = '\n')))
  split at h
  · next rest2 heq =>
    split at h
    · exact Option.noConfusion h
    · have hu := Option.some.inj h
      subst hu
      have h3 := mkParts_query_le
        (splitScheme (link.filter (fun c => !(c = '\t' || c = '\r' || c = '\n')))).1
        (rest2.takeWhile (fun c => !netlocEnd c))
        (rest2.dropWhile (fun c => !netlocEnd c))
      have h4 : (rest2.dropWhile (fun c => !netlocEnd c)).length ≤ rest2.length :=
        (List.dropWhile_sublist _).length_le
      have h5 : rest2.length + 2
          = (splitScheme (link.filter (fun c => !(c = '\t' || c = '\r' || c = '\n')))).2.length := by
        rw [heq]
        simp
      omega
  · next rest1 heq =>
    have hu := Option.some.inj h
    subst hu
    have h3 := mkParts_query_le
      (splitScheme (link.filter (fun c => !(c = '\t' || c = '\r' || c = '\n')))).1 []
      (splitScheme (link.filter (fun c => !(c = '\t' || c = '\r' || c = '\n')))).2
    omega

theorem target_lt_link (link target : List Char) (u : UrlParts)
    (hu : urlparse link = some u) (hq : qsLookup dlTargetKey u.query = some target) :
    target.length < link.length := by
  have h1 := qsLookup_lt dlTargetKey u.query target hq
  have h2 := urlparse_query_le link u hu
  omega

theorem extract_step_congr (r1 r2 : List Char → Option (List Char)) (link : List Char)
    (h : ∀ t, t.length < link.length → r1 t = r2 t) :
    extract_step r1 link = extract_step r2 link := by
  unfold extract_step
  cases hu : urlparse link with
  | none => rfl
  | some u =>
    by_cases h1 : containsSub itemChars u.path = true
    · simp only [h1, if_true]
    · simp only [h1, if_false, Bool.false_eq_true]
      by_cases h2 : u.netloc = sClickNetloc
      · simp only [h2, if_true]
        cases hq : qsLookup dlTargetKey u.query with
        | none => rfl
        | some target =>
          exact h target (target_lt_link link target u hu hq)
      · simp only [h2, if_false]

theorem extract_fuel_stable : ∀ (n : Nat) (link : List Char) (f1 f2 : Nat),
    link.length ≤ n → link.length < f1 → link.length < f2 →
    extract_product_id_fuel f1 link = extract_product_id_fuel f2 link := by
  intro n
  induction n with
  | zero =>
    intro link f1 f2 hn h1 h2
    obtain ⟨g1, rfl⟩ : ∃ g, f1 = g + 1 := ⟨f1 - 1, by omega⟩
    obtain ⟨g2, rfl⟩ : ∃ g, f2 = g + 1 := ⟨f2 - 1, by omega⟩
    rw [extract_product_id_fuel, extract_product_id_fuel]
    apply extract_step_congr
    intro t ht
    exact absurd ht (by omega)
  | succ n ih =>
    intro link f1 f2 hn h1 h2
    obtain ⟨g1, rfl⟩ : ∃ g, f1 = g + 1 := ⟨f1 - 1, by omega⟩
    obtain ⟨g2, rfl⟩ : ∃ g, f2 = g + 1 := ⟨f2 - 1, by omega⟩
    rw [extract_product_id_fuel, extract_product_id_fuel]
    apply extract_step_congr
    intro t ht
    exact ih t g1 g2 (by omega) (by omega) (by omega)

/-- C2 counterexample data: six nested redirect URLs, each embedding the
next in its dl_target_url parameter, innermost an /item/ URL. -/
def redirPre : List Char := "https://s.click.aliexpress.com/a?dl_target_url=".data

def lvl6 : List Char :=
  redirPre ++ (redirPre ++ (redirPre ++ (redirPre ++ (redirPre
    ++ (redirPre ++ "https://aliexpress.com/item/7.html".data)))))

set_option maxRecDepth 100000 in
/-- C2, as stated, is false on the code: there is no recursion cap at depth
5 (nor any explicit cap).  A chain of six nested redirects is fully
resolved by `extract_product_id`, which requires recursion depth beyond 5,
while the computation cut off after 5 recursive steps does not resolve it. -/
theorem C2_no_depth_cap_counterexample :
    extract_product_id_fuel 5 lvl6 = none ∧
    extract_product_id lvl6 = some "7".data ∧
    extract_product_id_fuel 5 lvl6 ≠ extract_product_id lvl6 := by
  refine ⟨by decide, by decide, by decide⟩

/-- C2 (amended): `extract_product_id` terminates on every input, not
because of a depth cap but because every embedded target URL is strictly
shorter than the URL carrying it, so the recursion depth is bounded by the
input length: any fuel beyond the input length computes the same result as
`extract_product_id` itself. -/
theorem C2_extract_terminates (link : List Char) (f : Nat) (hf : link.length < f) :
    extract_product_id_fuel f link = extract_product_id link ∧
    (∀ u target, urlparse link = some u → qsLookup dlTargetKey u.query = some target →
      target.length < link.length) := by
  constructor
  · exact extract_fuel_stable link.length link f (link.length + 1) (Nat.le_refl _) hf
      (by omega)
  · intro u target hu hq
    exact target_lt_link link target u hu hq

set_option maxRecDepth 100000 in
theorem C2_extract_terminates_witness :
    extract_product_id_fuel 400 lvl6 = extract_product_id lvl6 :=
  (C2_extract_terminates lvl6 400 (by decide)).1

/-- C1 counterexample data: a short-redirect-host URL whose path contains
'item' and whose query carries an embedded /item/ target URL. -/
def c1Link : List Char :=
  "https://s.click.aliexpress.com/item/99.html?dl_target_url=https://aliexpress.com/item/123.html".data

def c1Target : List Char := "https://aliexpress.com/item/123.html".data

set_option maxRecDepth 100000 in
/-- C1, as stated, is false on the code: the path branch (`'item' in
parsed_url.path`) is checked before the redirect-host branch, so on a
redirect-host URL whose path contains 'item' the id is taken from the path
('99') and the embedded target URL (whose id is '123') is never consulted,
even though the host is s.click.aliexpress.com and dl_target_url is
present. -/
theorem C1_item_path_counterexample :
    (urlparse c1Link).isSome = true ∧
    (∀ u, urlparse c1Link = some u →
      u.netloc = sClickNetloc ∧ qsLookup dlTargetKey u.query = some c1Target) ∧
    extract_product_id c1Link = some "99".data ∧
    extract_product_id c1Target = some "123".data ∧
    extract_product_id c1Link ≠ extract_product_id c1Target := by
  refine ⟨by decide, ?_, by decide, by decide, by decide⟩
  intro u hu
  have : u = ⟨"https".data, sClickNetloc, "/item/99.html".data, [],
      "dl_target_url=https://aliexpress.com/item/123.html".data, []⟩ := by
    have h2 : urlparse c1Link = some ⟨"https".data, sClickNetloc, "/item/99.html".data, [],
        "dl_target_url=https://aliexpress.com/item/123.html".data, []⟩ := by decide
    rw [h2] at hu
    exact (Option.some.inj hu).symm
  subst this
  exact ⟨rfl, by decide⟩

/-- C1 (amended): for a URL whose host parses to the short-redirect host
s.click.aliexpress.com, whose query carries a dl_target_url value, and
whose path does not contain the substring 'item' (the path branch is
checked first and would otherwise take precedence), `extract_product_id`
returns the same result as `extract_product_id` applied to the embedded
target URL. -/
theorem C1_redirect_unwrap (link target : List Char) (u : UrlParts)
    (hu : urlparse link = some u)
    (hitem : containsSub itemChars u.path = false)
    (hnet : u.netloc = sClickNetloc)
    (hq : qsLookup dlTargetKey u.query = some target) :
    extract_product_id link = extract_product_id target := by
  unfold extract_product_id
  rw [extract_product_id_fuel]
  unfold extract_step
  rw [hu]
  simp only [hitem, Bool.false_eq_true, if_false, hnet, if_true, hq]
  have hlt := target_lt_link link target u hu hq
  exact extract_fuel_stable target.length target link.length (target.length + 1)
    (Nat.le_refl _) (by omega) (by omega)

set_option maxRecDepth 100000 in
theorem C1_redirect_unwrap_witness :
    extract_product_id
        "https://s.click.aliexpress.com/a?dl_target_url=https://aliexpress.com/item/123.html".data
      = extract_product_id "https://aliexpress.com/item/123.html".data :=
  C1_redirect_unwrap _ _
    ⟨"https".data, sClickNetloc, "/a".data, [],
      "dl_target_url=https://aliexpress.com/item/123.html".data, []⟩
    (by decide) (by decide) rfl (by decide)

/- ===================================================================
   Section 7: Link extraction and validation
   (src/bot/utils.py lines 9-47; the four regular expressions are
    modelled by a small regex engine with Python re's backtracking
    priority: alternation prefers the left branch, option and plus are
    greedy.  The patterns use only literals, two-character classes,
    optional groups, alternation and plus-of-a-class, so the engine
    needs no general star.)
   =================================================================== -/

/-- Regular expressions as used by the four link patterns: empty word,
single character class, concatenation, alternation, and one-or-more of a
character class. -/
inductive RE where
  | eps : RE
  | ch : (Char → Bool) → RE
  | cat : RE → RE → RE
  | alt : RE → RE → RE
  | plus : (Char → Bool) → RE

/-- The backtracking matcher: all ways to match a prefix of `s`, as the
list of corresponding remainders in Python re's preference order (left
alternative first, longest plus-run first). -/
def mtch : RE → List Char → List (List Char)
  | RE.eps, s => [s]
  | RE.ch _, [] => []
  | RE.ch p, c :: rest => if p c then [rest] else []
  | RE.cat a b, s => (mtch a s).flatMap (mtch b)
  | RE.alt a b, s => mtch a s ++ mtch b s
  | RE.plus p, s =>
    let n := (s.takeWhile p).length
    (List.range n).map (fun i => s.drop (n - i))

/-- The language of a regular expression. -/
inductive RMatch : RE → List Char → Prop where
  | eps : RMatch RE.eps []
  | ch {p : Char → Bool} {c : Char} : p c = true → RMatch (RE.ch p) [c]
  | cat {a b : RE} {u v : List Char} :
      RMatch a u → RMatch b v → RMatch (RE.cat a b) (u ++ v)
  | altl {a b : RE} {u : List Char} : RMatch a u → RMatch (RE.alt a b) u
  | altr {a b : RE} {u : List Char} : RMatch b u → RMatch (RE.alt a b) u
  | plus_one {p : Char → Bool} {c : Char} : p c = true → RMatch (RE.plus p) [c]
  | plus_cons {p : Char → Bool} {c : Char} {s : List Char} :
      p c = true → RMatch (RE.plus p) s → RMatch (RE.plus p) (c :: s)

theorem take_all_p (p : Char → Bool) : ∀ (s : List Char) (k : Nat),
    k ≤ (s.takeWhile p).length → ∀ c ∈ s.take k, p c = true := by
  intro s
  induction s with
  | nil => intro k hk c hc; simp at hc
  | cons x rest ih =>
    intro k hk c hc
    by_cases hp : p x = true
    · rw [List.takeWhile_cons, if_pos hp] at hk
      match k with
      | 0 => simp at hc
      | k' + 1 =>
        rw [List.take_succ_cons] at hc
        rcases List.mem_cons.mp hc with h | h
        · subst h; exact hp
        · exact ih k' (by simp at hk; omega) c h
    · rw [List.takeWhile_cons, if_neg hp] at hk
      simp at hk
      subst hk
      simp at hc

theorem RMatch_plus_of_all (p : Char → Bool) : ∀ (u : List Char), u ≠ [] →
    (∀ c ∈ u, p c = true) → RMatch (RE.plus p) u := by
  intro u
  induction u with
  | nil => intro h _; exact absurd rfl h
  | cons c rest ih =>
    intro _ hall
    rcases rest with _ | ⟨d, rest2⟩
    · exact RMatch.plus_one (hall c (by simp))
    · exact RMatch.plus_cons (hall c (by simp))
        (ih (by simp) (fun x hx => hall x (by simp [hx])))

theorem mtch_sound : ∀ (r : RE) (s rem : List Char), rem ∈ mtch r s →
    ∃ u, u ++ rem = s ∧ RMatch r u := by
  intro r
  induction r with
  | eps =>
    intro s rem h
    simp only [mtch, List.mem_singleton] at h
    subst h
    exact ⟨[], rfl, RMatch.eps⟩
  | ch p =>
    intro s rem h
    match s with
    | [] => simp [mtch] at h
    | c :: rest =>
      rw [mtch] at h
      split at h
      · simp only [List.mem_singleton] at h
        subst h
        exact ⟨[c], rfl, RMatch.ch (by assumption)⟩
      · simp at h
  | cat a b iha ihb =>
    intro s rem h
    rw [mtch] at h
    obtain ⟨rem1, h1, h2⟩ := List.mem_flatMap.mp h
    obtain ⟨u1, hu1, hm1⟩ := iha s rem1 h1
    obtain ⟨u2, hu2, hm2⟩ := ihb rem1 rem h2
    exact ⟨u1 ++ u2, by rw [List.append_assoc, hu2, hu1], RMatch.cat hm1 hm2⟩
  | alt a b iha ihb =>
    intro s rem h
    rw [mtch] at h
    rcases List.mem_append.mp h with h | h
    · obtain ⟨u, hu, hm⟩ := iha s rem h
      exact ⟨u, hu, RMatch.altl hm⟩
    · obtain ⟨u, hu, hm⟩ := ihb s rem h
      exact ⟨u, hu, RMatch.altr hm⟩
  | plus p =>
    intro s rem h
    simp only [mtch, List.mem_map, List.mem_range] at h
    obtain ⟨i, hi, hrem⟩ := h
    subst hrem
    have hn : (s.takeWhile p).length ≤ s.length := (List.takeWhile_sublist p).length_le
    refine ⟨s.take ((s.takeWhile p).length - i), List.take_append_drop _ s, ?_⟩
    apply RMatch_plus_of_all
    · intro hcontra
      have hlen := congrArg List.length hcontra
      rw [List.length_take] at hlen
      simp only [List.length_nil] at hlen
      omega
    · intro c hc
      exact take_all_p p s _ (by omega) c hc

theorem mtch_complete : ∀ {r : RE} {u : List Char}, RMatch r u →
    ∀ rest, rest ∈ mtch r (u ++ rest) := by
  intro r u h
  induction h with
  | eps => intro rest; simp [mtch]
  | ch hp =>
    intro rest
    simp [mtch, hp]
  | cat h1 h2 ih1 ih2 =>
    intro rest
    rw [List.append_assoc]
    simp only [mtch]
    exact List.mem_flatMap.mpr ⟨_, ih1 _, ih2 rest⟩
  | altl h ih =>
    intro rest
    simp only [mtch]
    exact List.mem_append.mpr (Or.inl (ih rest))
  | altr h ih =>
    intro rest
    simp only [mtch]
    exact List.mem_append.mpr (Or.inr (ih rest))
  | plus_one hp =>
    next p c =>
    intro rest
    simp only [mtch, List.cons_append, List.nil_append]
    have hn : ((c :: rest).takeWhile p).length = (rest.takeWhile p).length + 1 := by
      simp [List.takeWhile_cons, hp]
    apply List.mem_map.mpr
    refine ⟨(rest.takeWhile p).length, List.mem_range.mpr (by omega), ?_⟩
    rw [hn]
    simp
  | plus_cons hp hm ih =>
    next p c s0 =>
    intro rest
    simp only [mtch, List.cons_append] at ih ⊢
    obtain ⟨i, hi, hdrop⟩ := List.mem_map.mp (ih rest)
    rw [List.mem_range] at hi
    have hn : ((c :: (s0 ++ rest)).takeWhile p).length
        = ((s0 ++ rest).takeWhile p).length + 1 := by
      simp [List.takeWhile_cons, hp]
    apply List.mem_map.mpr
    refine ⟨i, List.mem_range.mpr (by omega), ?_⟩
    rw [hn]
    have harith : ((s0 ++ rest).takeWhile p).length + 1 - i
        = (((s0 ++ rest).takeWhile p).length - i) + 1 := by omega
    rw [harith, List.drop_succ_cons]
    exact hdrop

/-- Python `re.findall` as used by `extract_aliexpress_links`: scan left to
right; at each position take the preferred match if any (emitting the
matched text — the four patterns contain only non-capturing groups, so
findall returns whole matches), continue after it (after one character for
an empty match or no match).  Structural fuel: every recursion strictly
shortens the input, so fuel `s.length` (used by `findall`) suffices. -/
def findallGo (r : RE) : Nat → List Char → List (List Char)
  | _, [] => if (mtch r []).isEmpty then [] else [[]]
  | 0, _ :: _ => []
  | fuel + 1, c :: rest =>
    match (mtch r (c :: rest)).head? with
    | none => findallGo r fuel rest
    | some rem =>
      if rem.length = (c :: rest).length then
        (c :: rest).take ((c :: rest).length - rem.length) :: findallGo r fuel rest
      else (c :: rest).take ((c :: rest).length - rem.length) :: findallGo r fuel rem

def findall (r : RE) (s : List Char) : List (List Char) := findallGo r s.length s

theorem RMatch_of_empty_mtch (r : RE) (h : (mtch r []).isEmpty = false) : RMatch r [] := by
  match hl : mtch r [] with
  | [] => rw [hl] at h; simp at h
  | rem :: _ =>
    obtain ⟨u, hu, hm⟩ := mtch_sound r [] rem (by rw [hl]; exact List.mem_cons_self _ _)
    obtain ⟨h1, -⟩ := List.append_eq_nil.mp hu
    exact h1 ▸ hm

theorem emitted_match (r : RE) (s rem : List Char) (h : rem ∈ mtch r s) :
    RMatch r (s.take (s.length - rem.length)) := by
  obtain ⟨u, hu, hm⟩ := mtch_sound r s rem h
  have hlen : s.length = u.length + rem.length := by
    rw [← hu, List.length_append]
  have h2 : s.length - rem.length = u.length := by omega
  rw [h2, ← hu, List.take_left]
  exact hm

theorem findallGo_sound (r : RE) : ∀ (fuel : Nat) (s m : List Char),
    m ∈ findallGo r fuel s → RMatch r m := by
  intro fuel
  induction fuel with
  | zero =>
    intro s m h
    match s with
    | [] =>
      rw [findallGo] at h
      split at h
      · simp at h
      · next hne =>
        simp only [List.mem_singleton] at h
        subst h
        exact RMatch_of_empty_mtch r (by simpa using hne)
    | c :: rest => simp [findallGo] at h
  | succ f ih =>
    intro s m h
    match s with
    | [] =>
      rw [findallGo] at h
      split at h
      · simp at h
      · next hne =>
        simp only [List.mem_singleton] at h
        subst h
        exact RMatch_of_empty_mtch r (by simpa using hne)
    | c :: rest =>
      rw [findallGo] at h
      cases hh : (mtch r (c :: rest)).head? with
      | none =>
        rw [hh] at h
        exact ih rest m h
      | some rem =>
        rw [hh] at h
        simp only [] at h
        have hmem := head?_mem _ _ hh
        by_cases hlen : rem.length = (c :: rest).length
        · rw [if_pos hlen] at h
          rcases List.mem_cons.mp h with h2 | h2
          · subst h2
            exact emitted_match r (c :: rest) rem hmem
          · exact ih rest m h2
        · rw [if_neg hlen] at h
          rcases List.mem_cons.mp h with h2 | h2
          · subst h2
            exact emitted_match r (c :: rest) rem hmem
          · exact ih rem m h2

/-- Character classes of the patterns.  Python re is Unicode-aware; the
ASCII readings below agree with it on the link alphabets in question, and
the same predicates are used by extraction and validation, which is all
claim C10 depends on. -/
def isWordB (c : Char) : Bool := c.isAlphanum || c == '_'

def isDigitB (c : Char) : Bool := c.isDigit

def isSpaceB (c : Char) : Bool :=
  c == ' ' || c == '\t' || c == '\n' || c == '\r' || c == '\x0b' || c == '\x0c'

def lowerB (c : Char) : Bool := 'a' ≤ c && c ≤ 'z'

/-- A literal string as a regular expression. -/
def strRE : List Char → RE
  | [] => RE.eps
  | c :: rest => RE.cat (RE.ch (· == c)) (strRE rest)

def optRE (r : RE) : RE := RE.alt r RE.eps

/-- The shared prefix `https?://` of all four patterns. -/
def httpPre : RE :=
  RE.cat (strRE "http".data) (RE.cat (optRE (RE.ch (· == 's'))) (strRE "://".data))

/-- The group `(?:www\.)?`. -/
def wwwOpt : RE := optRE (strRE "www.".data)

/-- The group `(?:aliexpress\.com|(?:[a-z]{2}\.)?aliexpress\.com)`. -/
def hostAlt : RE :=
  RE.alt (strRE "aliexpress.com".data)
    (RE.cat (optRE (RE.cat (RE.ch lowerB) (RE.cat (RE.ch lowerB) (RE.ch (· == '.')))))
      (strRE "aliexpress.com".data))

/-- Pattern 1 of ALIEXPRESS_LINK_PATTERNS (utils.py line 10). -/
def pattern1 : RE :=
  RE.cat httpPre (RE.cat wwwOpt (RE.cat hostAlt (RE.cat (strRE "/item/".data)
    (RE.cat (RE.plus (fun c => isDigitB c || isWordB c)) (strRE ".html".data)))))

/-- Pattern 2 of ALIEXPRESS_LINK_PATTERNS (utils.py line 11). -/
def pattern2 : RE :=
  RE.cat httpPre (RE.cat wwwOpt (RE.cat hostAlt (RE.cat (RE.ch (· == '/'))
    (RE.cat (RE.plus isDigitB) (RE.cat (RE.ch (· == '/'))
      (RE.cat (RE.plus isDigitB) (strRE ".html".data)))))))

/-- Pattern 3 of ALIEXPRESS_LINK_PATTERNS (utils.py line 12). -/
def pattern3 : RE :=
  RE.cat httpPre (RE.cat (optRE (strRE "s.".data))
    (RE.cat (strRE "click.aliexpress.com/".data) (RE.plus (fun c => !isSpaceB c))))

/-- Pattern 4 of ALIEXPRESS_LINK_PATTERNS (utils.py line 13). -/
def pattern4 : RE :=
  RE.cat httpPre (RE.cat wwwOpt (RE.cat (strRE "aliexpress.ru/item/".data)
    (RE.cat (RE.plus (fun c => isDigitB c || isWordB c)) (strRE ".html".data))))

def ALIEXPRESS_LINK_PATTERNS : List RE := [pattern1, pattern2, pattern3, pattern4]

/-- Translation of `extract_aliexpress_links` (utils.py lines 16-33):
empty input gives no links, otherwise the findall results of the four
patterns, in pattern order. -/
def extract_aliexpress_links (text : List Char) : List (List Char) :=
  if text = [] then []
  else ALIEXPRESS_LINK_PATTERNS.flatMap (fun p => findall p text)

/-- Translation of `is_valid_aliexpress_link` (utils.py lines 35-47):
`re.match` anchors at the start, so validity is the existence of a match
of some pattern on a prefix of the link. -/
def is_valid_aliexpress_link (link : List Char) : Bool :=
  ALIEXPRESS_LINK_PATTERNS.any (fun p => !(mtch p link).isEmpty)

/-- C10: every candidate returned by `extract_aliexpress_links` is a full
match of the pattern that produced it, and validation (which anchors the
same patterns at the start of the candidate) therefore succeeds on it; the
no-valid-candidate branch of the orchestrator is unreachable when at least
one candidate was extracted. -/
theorem C10_candidates_valid (text link : List Char)
    (h : link ∈ extract_aliexpress_links text) :
    is_valid_aliexpress_link link = true := by
  unfold extract_aliexpress_links at h
  split at h
  · simp at h
  · obtain ⟨p, hp, hlink⟩ := List.mem_flatMap.mp h
    have hmatch : RMatch p link := findallGo_sound p text.length text link hlink
    have hmem : [] ∈ mtch p link := by
      have := mtch_complete hmatch []
      simpa using this
    apply List.any_eq_true.mpr
    refine ⟨p, hp, ?_⟩
    simp only [Bool.not_eq_true']
    exact List.isEmpty_eq_false.mpr (List.ne_nil_of_mem hmem)

set_option maxRecDepth 400000 in
theorem C10_candidates_valid_witness :
    "https://aliexpress.com/item/5.html".data
        ∈ extract_aliexpress_links "see https://aliexpress.com/item/5.html ok".data ∧
    is_valid_aliexpress_link "https://aliexpress.com/item/5.html".data = true :=
  ⟨by decide,
    C10_candidates_valid "see https://aliexpress.com/item/5.html ok".data
      "https://aliexpress.com/item/5.html".data (by decide)⟩
